import Mathlib

/-!
Verification of the pdf_to_excel extraction-and-reconciliation pipeline.

This file gives a shallow embedding, in Lean 4, of the core pipeline in
src/processor.py and proves the specification claims about it.

Modelling conventions:
* pandas missing values (NaN / pd.NA) are `Option.none`; a table cell is
  `Option String` as produced by the external table extractor.
* floating-point numbers are idealized as exact rationals (`Rat`); the
  special float strings "inf"/"nan" are treated as unparseable.
* Python regex searches over the document text are embedded as explicit
  character-list scanners with the exact semantics of the two fixed
  patterns used by the code (leftmost match, greedy/lazy as in the source).
* functions that raise in Python return `Except String`; functions that
  return `None` return `Option`.
-/

namespace PdfToExcel

/-- Cell of a raw extracted table: a string, or missing (NaN). -/
abbrev Cell := Option String

/-- Characters treated as whitespace by the Python code: the `\s` regex
class and `str.strip`, restricted to the characters that can actually
occur in extracted PDF text (ASCII whitespace and the non-breaking
space). -/
def wsChar (c : Char) : Bool :=
  c = ' ' ∨ c = '\t' ∨ c = '\n' ∨ c = '\r' ∨ c = '\x0b' ∨ c = '\x0c' ∨ c = ' '

/-- Drop trailing whitespace characters. -/
def dropTrailingWs (cs : List Char) : List Char :=
  (cs.reverse.dropWhile wsChar).reverse

/-- Python `str.strip()`: drop whitespace at both ends. -/
def stripWs (cs : List Char) : List Char :=
  dropTrailingWs (cs.dropWhile wsChar)

/-- Collapse consecutive spaces to a single space (helper for the
`\s+` → single space substitution of `clean_text_series`). -/
def squeezeSpaces : List Char → List Char
  | [] => []
  | [c] => [c]
  | a :: b :: rest =>
      if a = ' ' ∧ b = ' ' then squeezeSpaces (b :: rest)
      else a :: squeezeSpaces (b :: rest)

/-- Replace every whitespace run by a single space:
the `.str.replace(r"\s+", " ", regex=True)` step of `clean_text_series`. -/
def collapseWs (cs : List Char) : List Char :=
  squeezeSpaces (cs.map (fun c => if wsChar c then ' ' else c))

/-- Model of `clean_text_series`, per cell: fill missing with "", collapse
whitespace runs to one space, strip the ends, and turn an empty result
back into missing. -/
def cleanTextCell (v : Option String) : Option String :=
  let cs := stripWs (collapseWs (v.getD "").toList)
  if cs.isEmpty then none else some (String.mk cs)

/-- Model of `clean_code_series`, per cell: fill missing with "", strip
whitespace, remove one trailing ".0" (regex `\.0$`), and turn an empty
result back into missing. -/
def cleanCodeCell (v : Option String) : Option String :=
  let cs := stripWs (v.getD "").toList
  let cs2 := match cs.reverse with
    | '0' :: '.' :: r => r.reverse
    | _ => cs
  if cs2.isEmpty then none else some (String.mk cs2)

/-- Numeric value of a list of decimal digit characters. -/
def digitsToNat (ds : List Char) : Nat :=
  ds.foldl (fun a c => 10 * a + (c.toNat - 48)) 0

/-- Parse an optionally signed run of digits (the exponent of a float
literal); the whole input must be consumed. -/
def parseSignedDigits (cs : List Char) : Option Int :=
  let p := match cs with
    | '-' :: r => (true, r)
    | '+' :: r => (false, r)
    | _ => (false, cs)
  let ds := p.2.takeWhile Char.isDigit
  if ds.isEmpty ∨ ¬ (p.2.dropWhile Char.isDigit).isEmpty then none
  else some (if p.1 then -(digitsToNat ds : Int) else (digitsToNat ds : Int))

/-- Parse the exponent tail of a float literal ("", or `e`/`E` followed by
an optionally signed digit run). -/
def parseExpTail : List Char → Option Int
  | [] => some 0
  | 'e' :: rest => parseSignedDigits rest
  | 'E' :: rest => parseSignedDigits rest
  | _ => none

/-- Model of the float-string parser behind `pd.to_numeric(errors="coerce")`:
optional surrounding whitespace, optional sign, digits with an optional
fractional part and an optional exponent; anything else coerces to
missing.  The result is the pair (significand, decimal exponent): the
string denotes significand * 10 ^ exponent. -/
def parsePyParts (cs0 : List Char) : Option (Int × Int) :=
  let cs1 := stripWs cs0
  let sp := match cs1 with
    | '-' :: r => (true, r)
    | '+' :: r => (false, r)
    | _ => (false, cs1)
  let ip := sp.2.takeWhile Char.isDigit
  let r1 := sp.2.dropWhile Char.isDigit
  let mOpt : Option (Int × Int) :=
    match r1 with
    | '.' :: r2 =>
        let fp := r2.takeWhile Char.isDigit
        let r3 := r2.dropWhile Char.isDigit
        if ip.isEmpty ∧ fp.isEmpty then none
        else (parseExpTail r3).map
          (fun e => ((digitsToNat (ip ++ fp) : Int), e - fp.length))
    | _ =>
        if ip.isEmpty then none
        else (parseExpTail r1).map (fun e => ((digitsToNat ip : Int), e))
  mOpt.map (fun p => (if sp.1 then -p.1 else p.1, p.2))

/-- Rational value denoted by a (significand, decimal exponent) pair;
floating-point values are idealized as exact rationals. -/
def sciToRat (p : Int × Int) : Rat :=
  (p.1 : Rat) * (10 : Rat) ^ p.2

/-- Character-level numeric parse, as a rational. -/
def parsePyFloatChars (cs : List Char) : Option Rat :=
  (parsePyParts cs).map sciToRat

/-- Numeric parse of a whole string, as `pd.to_numeric` applies it. -/
def parsePyFloat (s : String) : Option Rat :=
  parsePyFloatChars s.toList

/-- Model of `_to_number_series`, per cell: fill missing with "", replace
non-breaking spaces by spaces, remove all spaces, turn the decimal comma
into a point, and parse as a float; unparseable input becomes missing. -/
def toNumberParts (v : Option String) : Option (Int × Int) :=
  let cs := (v.getD "").toList
  let cs := cs.map (fun c => if c = ' ' then ' ' else c)
  let cs := cs.filter (fun c => c ≠ ' ')
  let cs := cs.map (fun c => if c = ',' then '.' else c)
  parsePyParts cs

/-- Model of `_to_number_series`, per cell, as a rational value. -/
def toNumberCell (v : Option String) : Option Rat :=
  (toNumberParts v).map sciToRat

/-! ### Identifier Extractor

Model of `extract_doc_number`.  The external raw-text extractor (PyPDF2)
is a collaborator: the model takes the document text directly.  The two
compiled patterns of the source are embedded as explicit scanners with
Python `re.search` semantics (leftmost match; `re.IGNORECASE | re.DOTALL`
on the first pattern).  `\d` is modelled as the ASCII digits, the only
digits the patterns are used on. -/

/-- Lowercasing for `re.IGNORECASE`, covering the basic Cyrillic capitals
used by the first pattern as well as ASCII. -/
def lowerRu (c : Char) : Char :=
  if 0x410 ≤ c.toNat ∧ c.toNat ≤ 0x42F then Char.ofNat (c.toNat + 0x20) else c.toLower

/-- Match a literal (already-lowercase) pattern at the head of the text,
case-insensitively; return the rest of the text. -/
def matchLit : List Char → List Char → Option (List Char)
  | [], cs => some cs
  | _ :: _, [] => none
  | p :: ps, c :: cs => if lowerRu c = p then matchLit ps cs else none

/-- Match `\s+` at the head of the text (greedy; a following literal can
never start with whitespace here, so no backtracking is needed). -/
def matchWsPlus : List Char → Option (List Char)
  | [] => none
  | c :: rest => if wsChar c then some (rest.dropWhile wsChar) else none

/-- Match the label phrase of the first pattern at the head of the text. -/
def matchLabel (cs : List Char) : Option (List Char) :=
  (matchLit "номер".toList cs).bind fun r1 =>
    (matchWsPlus r1).bind fun r2 => matchLit "документа".toList r2

/-- Model of the lazy tail `.*?(\d{4,9})` under `re.DOTALL`: the earliest
position holding at least 4 consecutive digits wins, and the group takes
greedily, up to 9 digits. -/
def firstRun4 : List Char → Option (List Char)
  | [] => none
  | c :: rest =>
      let run := (c :: rest).takeWhile Char.isDigit
      if 4 ≤ run.length then some (run.take 9) else firstRun4 rest

/-- Search for the first pattern
`Номер\s+документа.*?(\d{4,9})` (IGNORECASE, DOTALL) and return group 1. -/
def searchD1 : List Char → Option (List Char)
  | [] => none
  | c :: rest =>
      match matchLabel (c :: rest) with
      | some after =>
          match firstRun4 after with
          | some ds => some ds
          | none => searchD1 rest
      | none => searchD1 rest

/-- Match the date token `\d{2}\.\d{2}\.\d{4}` at the head of the text. -/
def matchDate : List Char → Bool
  | d1 :: d2 :: '.' :: d3 :: d4 :: '.' :: y1 :: y2 :: y3 :: y4 :: _ =>
      d1.isDigit ∧ d2.isDigit ∧ d3.isDigit ∧ d4.isDigit ∧
        y1.isDigit ∧ y2.isDigit ∧ y3.isDigit ∧ y4.isDigit
  | _ => false

/-- Match `\s+` followed by the date token at the head of the text
(the greedy `\s+` needs no backtracking: the date starts with a digit). -/
def wsThenDate : List Char → Bool
  | [] => false
  | c :: rest => wsChar c ∧ matchDate (rest.dropWhile wsChar)

/-- Greedy `\d{1,9}` with backtracking: try k digits, k counting down,
each followed by whitespace and the date token. -/
def tryDigitsK : Nat → List Char → Option (List Char)
  | 0, _ => none
  | k + 1, cs =>
      if wsThenDate (cs.drop (k + 1)) then some (cs.take (k + 1))
      else tryDigitsK k cs

/-- Try the second pattern anchored at the current position. -/
def tryD2At (cs : List Char) : Option (List Char) :=
  let run := cs.takeWhile Char.isDigit
  if run.isEmpty then none else tryDigitsK (min 9 run.length) cs

/-- Search for the second pattern `(\d{1,9})\s+\d{2}\.\d{2}\.\d{4}` and
return group 1. -/
def searchD2 : List Char → Option (List Char)
  | [] => none
  | c :: rest =>
      match tryD2At (c :: rest) with
      | some g => some g
      | none => searchD2 rest

/-- Model of `extract_doc_number`, taking the concatenated page text:
the first pattern is tried first; if it fails the second is tried; if
both fail the result is `none` (not an error). -/
def extractDocNumber (text : String) : Option String :=
  match searchD1 text.toList with
  | some ds => some (String.mk ds)
  | none => (searchD2 text.toList).map String.mk

/-- Modelled from the spec wording of the fallback pattern in claim C9:
a standalone run of 1 to 9 digits (a maximal digit run, not part of a
longer run) followed by whitespace and then the date token.  Used to
compare the spec's description against the code's actual pattern. -/
def specFallbackScan : Bool → List Char → Option (List Char)
  | _, [] => none
  | prevDigit, c :: rest =>
      if c.isDigit ∧ ¬ prevDigit then
        let run := (c :: rest).takeWhile Char.isDigit
        if run.length ≤ 9 ∧ wsThenDate ((c :: rest).dropWhile Char.isDigit) then some run
        else specFallbackScan c.isDigit rest
      else specFallbackScan c.isDigit rest

/-- Spec-side fallback search over a whole string. -/
def specFallbackFind (s : String) : Option String :=
  (specFallbackScan false s.toList).map String.mk

/-! ### Table Selector

Model of `_choose_and_clean_table`.  A raw table is a pandas DataFrame as
produced by tabula: a grid of cells with a column count.  The source's
`tbl is None or tbl.empty` guard is subsumed here: tabula yields actual
DataFrames, and an empty one (0 rows or 0 columns) already fails the size
check `len(tbl) <= 5 or len(tbl.columns) <= 2`.  Likewise `df.empty` after
trimming is subsumed by `len(df) < 2` because the column count is ≥ 3. -/

/-- Raw extracted table: column count and the grid of cell values. -/
structure RawTable where
  ncols : Nat
  cells : List (List Cell)
deriving DecidableEq

/-- Selected table after trimming: the header row (which becomes the
column names) and the remaining data rows. -/
structure CleanedTable where
  header : List Cell
  data : List (List Cell)
deriving DecidableEq

/-- The positional trim offsets of the source:
`slice_rules = {0: (3, -2), 2: (1, -2)}` with default `(3, -2)`; the
second component is the offset from the end. -/
def sliceRule (i : Nat) : Nat × Nat :=
  if i = 2 then (1, 2) else (3, 2)

/-- Python slice `rows[start : len(rows) - endOff]`. -/
def pyslice (rows : List (List Cell)) (start endOff : Nat) : List (List Cell) :=
  (rows.drop start).take (rows.length - endOff - start)

/-- A table too small to be the data table. -/
def smallTable (t : RawTable) : Bool :=
  t.cells.length ≤ 5 ∨ t.ncols ≤ 2

/-- Trim a table by the rule for original index `i`. -/
def trimAt (i : Nat) (t : RawTable) : List (List Cell) :=
  pyslice t.cells (sliceRule i).1 (sliceRule i).2

/-- The first remaining row becomes the header, the rest the data. -/
def headerize (rows : List (List Cell)) : CleanedTable :=
  { header := rows.head?.getD [], data := rows.tail }

/-- The selector loop: `i` is the index in the original list. -/
def chooseGo : Nat → List RawTable → Option CleanedTable
  | _, [] => none
  | i, t :: rest =>
      if smallTable t then chooseGo (i + 1) rest
      else
        let df := trimAt i t
        if df.length < 2 then chooseGo (i + 1) rest
        else some (headerize df)

/-- Model of `_choose_and_clean_table`. -/
def chooseAndCleanTable (tables : List RawTable) : Option CleanedTable :=
  chooseGo 0 tables

/-! ### Document Table Builder

Model of `build_doc_df`.  The external extractors are collaborators: the
identifier (from `extract_doc_number`) and the selected table (from
`extract_table`) are taken as arguments.  A Python `ValueError` is an
`Except.error`.  Note `extract_doc_number` can only return `None` or a
nonempty digit string, so Python's falsiness test `if not doc_number`
coincides with the `none` test. -/

/-- Row of one document's cleaned table: unique code, optional label,
summed numeric value. -/
structure DocRow where
  code : String
  label : Option String
  val : Rat
deriving DecidableEq

/-- One document's table, keyed by its document number. -/
structure DocTable where
  docno : String
  rows : List DocRow
deriving DecidableEq

/-- Index of the first column with the given name (`df.loc` label lookup;
header labels are assumed unambiguous, as `required` checks guarantee
presence and tabula does not duplicate labels). -/
def colIdx (t : CleanedTable) (name : String) : Nat :=
  (t.header.findIdx? (fun c => c = some name)).getD 0

/-- Cell of a row at a column index (missing when the row is short). -/
def cellAt (row : List Cell) (j : Nat) : Cell :=
  (row.get? j).getD none

/-- Project one data row to its (label, code, value) source cells, i.e.
the columns labelled "2", "3" and "10". -/
def rowTriple (t : CleanedTable) (row : List Cell) : Cell × Cell × Cell :=
  (cellAt row (colIdx t "2"), cellAt row (colIdx t "3"), cellAt row (colIdx t "10"))

/-- Normalize the three fields of every row and drop rows with a missing
code (`df.dropna(subset=["код"])`): result rows are (code, label, value). -/
def keptRows (triples : List (Cell × Cell × Cell)) : List (String × Option String × Option Rat) :=
  (triples.map (fun p => (cleanCodeCell p.2.1, cleanTextCell p.1, toNumberCell (cleanTextCell p.2.2)))).filterMap
    (fun q => q.1.map (fun code => (code, q.2.1, q.2.2)))

/-- First-occurrence deduplication, carrying the keys already seen. -/
def dedupFirstGo (seen : List String) : List String → List String
  | [] => []
  | c :: rest =>
      if c ∈ seen then dedupFirstGo seen rest
      else c :: dedupFirstGo (c :: seen) rest

/-- First-occurrence deduplication of a key list. -/
def dedupFirst (l : List String) : List String := dedupFirstGo [] l

/-- Lexicographic order on character lists (Python string comparison by
code points). -/
def charsLe : List Char → List Char → Bool
  | [], _ => true
  | _ :: _, [] => false
  | a :: as, b :: bs => if a < b then true else if b < a then false else charsLe as bs

/-- Python string ≤ by code points. -/
def strLe (a b : String) : Bool := charsLe a.toList b.toList

/-- Order on strings as a relation, for the sorts. -/
def strLeP (a b : String) : Prop := strLe a b = true

instance : DecidableRel strLeP := fun a b => instDecidableEqBool (strLe a b) true

/-- The group keys of a pandas `groupby`: unique, sorted ascending.
Insertion sort here is extensionally any sort; pandas' choice is
irrelevant because the keys are distinct after deduplication. -/
def sortedCodes (l : List String) : List String :=
  List.insertionSort strLeP (dedupFirst l)

/-- Model of the `groupby("код").agg(...)` step of `build_doc_df`: one row
per code, the first non-missing label of the group in original row order,
and the group's values summed with missing skipped. -/
def buildDocRows (triples : List (Cell × Cell × Cell)) : List DocRow :=
  let kept := keptRows triples
  (sortedCodes (kept.map (fun r => r.1))).map fun code =>
    let grp := kept.filter (fun r => r.1 = code)
    { code := code,
      label := (grp.filterMap (fun r => r.2.1)).head?,
      val := (grp.filterMap (fun r => r.2.2)).sum }

/-- Python `repr` of a string. -/
def pyReprStr (s : String) : String := "'" ++ s ++ "'"

/-- Python `repr` of a cell value as it appears in a column list. -/
def pyReprCell : Cell → String
  | none => "nan"
  | some s => "'" ++ s ++ "'"

/-- Join strings with a separator (Python `", ".join`). -/
def joinSep (sep : String) : List String → String
  | [] => ""
  | [s] => s
  | s :: s2 :: rest => s ++ sep ++ joinSep sep (s2 :: rest)

/-- Python `repr` of a list, elementwise. -/
def pyReprList (f : α → String) (l : List α) : String :=
  "[" ++ joinSep ", " (l.map f) ++ "]"

/-- The message of the `ValueError` raised by `build_doc_df` when required
columns are missing:
`f"(pdf_path): нет колонок (missing). Доступны: (list(df.columns))"`. -/
def schemaErrorMsg (pdfPath : String) (missing : List String) (cols : List Cell) : String :=
  pdfPath ++ ": нет колонок " ++ pyReprList pyReprStr missing ++
    ". Доступны: " ++ pyReprList pyReprCell cols

/-- The three required source column labels. -/
def requiredCols : List String := ["2", "3", "10"]

/-- Model of `build_doc_df`: given the document's path, its extracted
identifier and its selected table, return the pair
(document table or none, identifier or none), or the structural error. -/
def buildDocDf (pdfPath : String) (docno : Option String) (tbl : Option CleanedTable) :
    Except String (Option DocTable × Option String) :=
  match docno with
  | none => .ok (none, none)
  | some dn =>
      match tbl with
      | none => .ok (none, some dn)
      | some t =>
          let missing := requiredCols.filter (fun c => ¬ (some c ∈ t.header))
          if missing.isEmpty then
            .ok (some { docno := dn, rows := buildDocRows (t.data.map (rowTriple t)) }, some dn)
          else
            .error (schemaErrorMsg pdfPath missing t.header)

/-! ### Batch Reconciler

Model of the merging part of `process_pdfs`: documents whose identifier
or table was not found are already excluded.  The outer merges are
embedded for unique-key inputs (the DocumentTable invariant guaranteed by
`build_doc_df`'s groupby): each existing row gains the new document's
value for its code, and codes new to the running table would be appended
with missing values for all previously seen columns. -/

/-- Reconciled row: code, resolved label, one value column per document. -/
structure RRow where
  code : String
  label : Option String
  vals : List (Option Rat)
deriving DecidableEq

/-- The reconciled wide table: document column names in processing order,
and one row per code. -/
structure ReconciledTable where
  docs : List String
  rows : List RRow
deriving DecidableEq

/-- A document's value for a code, if present. -/
def lookupVal (d : DocTable) (c : String) : Option Rat :=
  (d.rows.find? (fun r => r.code = c)).map (fun r => r.val)

/-- Step 1 of `process_pdfs`: the code → first-non-missing-label
dictionary, over all documents' rows in document order, keys sorted by
the groupby. -/
def namesList (dfs : List DocTable) : List (String × Option String) :=
  let all := (dfs.map (fun d => d.rows)).flatten
  (sortedCodes (all.map (fun r => r.code))).map fun c =>
    (c, ((all.filter (fun r => r.code = c)).filterMap (fun r => r.label)).head?)

/-- One outer merge `merged.merge(dfi[["код", doc_col]], on="код",
how="outer")`; `k` is the number of document columns already merged. -/
def mergeOne (k : Nat) (acc : List RRow) (d : DocTable) : List RRow :=
  acc.map (fun r => { r with vals := r.vals ++ [lookupVal d r.code] })
    ++ (d.rows.filter (fun dr => acc.all (fun r => r.code ≠ dr.code))).map
        (fun dr => { code := dr.code, label := none,
                     vals := List.replicate k none ++ [some dr.val] })

/-- Fold of the outer merges over the documents in order. -/
def mergeAll : Nat → List RRow → List DocTable → List RRow
  | _, acc, [] => acc
  | k, acc, d :: ds => mergeAll (k + 1) (mergeOne k acc d) ds

/-- Model of the reconciliation of `process_pdfs` (steps 1 and 2 and the
final column reordering): for an empty document list this is the empty
frame with only the label and code columns, exactly as the source's
zero-document branch constructs it. -/
def reconcile (dfs : List DocTable) : ReconciledTable :=
  { docs := dfs.map (fun d => d.docno),
    rows := mergeAll 0 ((namesList dfs).map (fun p => { code := p.1, label := p.2, vals := [] })) dfs }

/-! ### Totals Calculator

Model of `add_totals`.  An empty input frame (no rows; the frame always
has the label and code columns) is returned unchanged by the source's
early `if final_df is None or final_df.empty: return final_df`; a
non-empty one becomes a totals view.  The sort models
`sort_values(by=["_code_num", "код"], na_position="last")`, a stable
multi-key sort: numeric key first with non-numbers last, the code string
as tie-break. -/

/-- Strict comparison of two (significand, exponent) pairs by the
rational values they denote, carried out over the integers (align the
exponents, compare the scaled significands).  `sciLtB_eq_ratLt` below
proves this is the comparison of the denoted rationals. -/
def sciLtB (p q : Int × Int) : Bool :=
  let k := min p.2 q.2
  decide (p.1 * 10 ^ (p.2 - k).toNat < q.1 * 10 ^ (q.2 - k).toNat)

/-- Strict comparison of sort keys, missing (NaN) last. -/
def optKeyLtB : Option (Int × Int) → Option (Int × Int) → Bool
  | some x, some y => sciLtB x y
  | some _, none => true
  | none, _ => false

/-- Numeric sort key of a code string:
`pd.to_numeric(df["код"].astype("string"), errors="coerce")`. -/
def codeKey (c : String) : Option (Int × Int) := parsePyParts c.toList

/-- The row order of `add_totals`: by numeric parse of the code when it
parses (NaN keys last), ties broken by the code string. -/
def codeLe (a b : String) : Bool :=
  if optKeyLtB (codeKey a) (codeKey b) then true
  else if optKeyLtB (codeKey b) (codeKey a) then false
  else strLe a b

/-- Row comparison used by the sort. -/
def rowLe (r1 r2 : RRow) : Bool := codeLe r1.code r2.code

/-- Row order as a relation. -/
def rowLeP (r1 r2 : RRow) : Prop := rowLe r1 r2 = true

instance : DecidableRel rowLeP := fun a b => instDecidableEqBool (rowLe a b) true

/-- Pandas `sum(skipna=True)`: drop missing, sum the rest (0 if none). -/
def sumSkipna (l : List (Option Rat)) : Rat := (l.filterMap id).sum

/-- Per-row total over the document value columns. -/
def rowTotal (r : RRow) : Rat := sumSkipna r.vals

/-- Per-column total over all data rows. -/
def colSum (rows : List RRow) (j : Nat) : Rat :=
  sumSkipna (rows.map (fun r => (r.vals.get? j).getD none))

/-- Row of the totals view: the reconciled cells plus the total column. -/
structure TRow where
  label : Option String
  code : Option String
  vals : List (Option Rat)
  total : Rat
deriving DecidableEq

/-- The exported table: reconciled rows sorted, plus totals. -/
structure TotalsView where
  docs : List String
  rows : List TRow
deriving DecidableEq

/-- Result of `add_totals`: the unchanged empty frame, or a totals view. -/
inductive TotalsResult where
  | unchanged (rt : ReconciledTable)
  | view (tv : TotalsView)
deriving DecidableEq

/-- Label of the synthetic totals row. -/
def totalLabel : String := "ИТОГО_СТОЛБЕЦ"

/-- Model of `add_totals`. -/
def addTotals (rt : ReconciledTable) : TotalsResult :=
  if rt.rows.isEmpty then .unchanged rt
  else
    let sorted := List.insertionSort rowLeP rt.rows
    let dataRows := sorted.map (fun r => TRow.mk r.label (some r.code) r.vals (rowTotal r))
    let totalsRow : TRow :=
      { label := some totalLabel, code := none,
        vals := (List.range rt.docs.length).map (fun j => some (colSum sorted j)),
        total := (sorted.map rowTotal).sum }
    .view { docs := rt.docs, rows := dataRows ++ [totalsRow] }

/-- The whole pipeline after per-document building: reconcile the eligible
document tables and add totals (`process_pdfs` from `doc_dfs` on). -/
def processTables (dfs : List DocTable) : TotalsResult :=
  addTotals (reconcile dfs)

/-- Strict order on optional rationals, missing (NaN) last: the reference
meaning of the integer-level key comparison `optKeyLtB`. -/
def optRatLtB : Option Rat → Option Rat → Bool
  | some x, some y => decide (x < y)
  | some _, none => true
  | none, _ => false

/-! ### Concrete fixtures used to witness the theorems -/

/-- Document table A of the specification's end-to-end scenario. -/
def exampleDocA : DocTable := ⟨"100", [⟨"1", none, 10⟩, ⟨"2", none, 20⟩]⟩

/-- Document table B of the specification's end-to-end scenario. -/
def exampleDocB : DocTable := ⟨"200", [⟨"2", none, 5⟩, ⟨"3", none, 7⟩]⟩

/-- The reconciled table of the end-to-end scenario. -/
def exampleReconciled : ReconciledTable :=
  ⟨["100", "200"],
   [⟨"1", none, [some 10, none]⟩,
    ⟨"2", none, [some 20, some 5]⟩,
    ⟨"3", none, [none, some 7]⟩]⟩

/-- The totals view of the end-to-end scenario: row totals 10, 25, 7;
column totals 30 and 12; grand total 42. -/
def exampleTotalsView : TotalsView :=
  ⟨["100", "200"],
   [⟨none, some "1", [some 10, none], 10⟩,
    ⟨none, some "2", [some 20, some 5], 25⟩,
    ⟨none, some "3", [none, some 7], 7⟩,
    ⟨some "ИТОГО_СТОЛБЕЦ", none, [some 30, some 12], 42⟩]⟩

/-- A raw table with 7 rows and 3 columns; eligible at index 0, and its
trim `[3 : end-2)` keeps exactly 2 rows. -/
def rawSeven : RawTable :=
  ⟨3, [[some "a0", some "b0", some "c0"],
       [some "a1", some "b1", some "c1"],
       [some "a2", some "b2", some "c2"],
       [some "a3", some "b3", some "c3"],
       [some "a4", some "b4", some "c4"],
       [some "a5", some "b5", some "c5"],
       [some "a6", some "b6", some "c6"]]⟩

/-- A selected table whose header lacks the required labels "3" and "10". -/
def exampleBadHeader : CleanedTable :=
  ⟨[some "2", some "x", none], [[some "п", some "1", some "5"]]⟩

/-- A selected table with the three required columns, a duplicated code
(after normalization), a missing value and a missing code. -/
def exampleGoodTable : CleanedTable :=
  ⟨[some "2", some "3", some "10"],
   [[some "b", some "10.0", some "3"],
    [none, some " 10 ", some "4"],
    [some "c", some "2", none],
    [none, none, some "9"]]⟩

end PdfToExcel

/-! ## Theorems -/

namespace PdfToExcel

/-- The rational view of the numeric normalizer factors through the
integer parts. -/
theorem toNumberCell_eq_parts (v : Option String) :
    toNumberCell v = (toNumberParts v).map sciToRat := rfl

/-- Summing the present values of an optional column equals summing with
missing replaced by 0. -/
theorem filterMap_sum_eq_getD_sum (f : α → Option Rat) :
    ∀ l : List α, (l.filterMap f).sum = (l.map (fun x => (f x).getD 0)).sum
  | [] => rfl
  | a :: l => by
      rcases h : f a with - | x <;>
        simp [List.filterMap_cons, h, filterMap_sum_eq_getD_sum f l]

/-- `sumSkipna` is summation with missing treated as 0. -/
theorem sumSkipna_eq_getD_sum (l : List (Option Rat)) :
    sumSkipna l = (l.map (fun v => v.getD 0)).sum := by
  simpa using filterMap_sum_eq_getD_sum id l

/-- Membership in the deduplication loop. -/
theorem mem_dedupFirstGo (x : String) :
    ∀ (l seen : List String), x ∈ dedupFirstGo seen l ↔ x ∈ l ∧ x ∉ seen
  | [], seen => by simp [dedupFirstGo]
  | c :: rest, seen => by
      by_cases hc : c ∈ seen
      · rw [dedupFirstGo, if_pos hc, mem_dedupFirstGo x rest seen]
        by_cases hx : x = c <;> simp_all
      · rw [dedupFirstGo, if_neg hc]
        by_cases hx : x = c
        · simp [hx, hc]
        · simp only [List.mem_cons, hx, false_or, mem_dedupFirstGo x rest (c :: seen)]
          try simp_all

/-- The deduplication loop yields distinct keys. -/
theorem nodup_dedupFirstGo :
    ∀ (l seen : List String), (dedupFirstGo seen l).Nodup
  | [], _ => List.nodup_nil
  | c :: rest, seen => by
      by_cases hc : c ∈ seen
      · rw [dedupFirstGo, if_pos hc]; exact nodup_dedupFirstGo rest seen
      · rw [dedupFirstGo, if_neg hc, List.nodup_cons]
        refine ⟨?_, nodup_dedupFirstGo rest (c :: seen)⟩
        rw [mem_dedupFirstGo]
        simp

/-- Membership in the groupby key list. -/
theorem mem_sortedCodes (l : List String) (x : String) :
    x ∈ sortedCodes l ↔ x ∈ l := by
  rw [sortedCodes, List.mem_insertionSort, dedupFirst, mem_dedupFirstGo]
  simp

/-- The groupby key list has no duplicates. -/
theorem nodup_sortedCodes (l : List String) : (sortedCodes l).Nodup :=
  (List.perm_insertionSort _ _).nodup_iff.mpr (nodup_dedupFirstGo l [])

/-- C8: each field normalizer is total on arbitrary string input —
unparseable or empty values become the missing marker, never an error —
and the listed examples hold: numeric normalization maps "1 234,56" to
1234.56, "1234" to 1234, and "" and "N/A" to missing; code normalization
maps "123.0" to "123" and "  45  " to "45", and an empty result becomes
missing (the normalizers never yield the empty string). -/
theorem claim8_normalizers_total_and_examples :
    toNumberCell (some "1 234,56") = some 1234.56 ∧
    toNumberCell (some "1234") = some 1234 ∧
    toNumberCell (some "") = none ∧
    toNumberCell (some "N/A") = none ∧
    cleanCodeCell (some "123.0") = some "123" ∧
    cleanCodeCell (some "  45  ") = some "45" ∧
    (∀ v, cleanCodeCell v = none ∨ ∃ t, cleanCodeCell v = some t ∧ t ≠ "") ∧
    (∀ v, cleanTextCell v = none ∨ ∃ t, cleanTextCell v = some t ∧ t ≠ "") := by
  refine ⟨?_, ?_, by decide, by decide, by decide, by decide, ?_, ?_⟩
  · rw [toNumberCell_eq_parts,
      show toNumberParts (some "1 234,56") = some (123456, -2) by decide]
    simp [sciToRat]
    norm_num
  · rw [toNumberCell_eq_parts,
      show toNumberParts (some "1234") = some (1234, 0) by decide]
    simp [sciToRat]
  · intro v
    rw [cleanCodeCell]
    split
    · exact Or.inl rfl
    · rename_i h
      refine Or.inr ⟨_, rfl, ?_⟩
      intro hs
      apply h
      have : (String.mk _).data = ("" : String).data := congrArg String.data hs
      simpa [List.isEmpty_iff] using this
  · intro v
    rw [cleanTextCell]
    split
    · exact Or.inl rfl
    · rename_i h
      refine Or.inr ⟨_, rfl, ?_⟩
      intro hs
      apply h
      have : (String.mk _).data = ("" : String).data := congrArg String.data hs
      simpa [List.isEmpty_iff] using this

/-- C9 (amended): the extractor applies its two patterns in order and the
first match wins; the primary pattern is the "document number" label
phrase followed (possibly across line breaks) by a run of 4-9 digits; the
fallback pattern is a run of at most 9 digits — for a longer digit run,
its trailing 9 digits — followed by whitespace and then a date token
dd.dd.dddd; when neither matches the result is "not found", not an
error. -/
theorem claim9_pattern_order :
    (∀ text ds, searchD1 text.toList = some ds →
        extractDocNumber text = some (String.mk ds)) ∧
    (∀ text, searchD1 text.toList = none →
        extractDocNumber text = (searchD2 text.toList).map String.mk) ∧
    extractDocNumber "Номер документа 1234" = some "1234" ∧
    extractDocNumber "Номер документа 5555 и 777 01.02.2023" = some "5555" ∧
    extractDocNumber "777 01.02.2023" = some "777" ∧
    extractDocNumber "1234567890 01.02.2024" = some "234567890" ∧
    extractDocNumber "77701.02.2023" = none ∧
    extractDocNumber "просто текст 9" = none := by
  refine ⟨?_, ?_, by decide, by decide, by decide, by decide, by decide, by decide⟩
  · intro text ds h
    rw [extractDocNumber, h]
  · intro text h
    rw [extractDocNumber, h]

/-- C9 witness: the first-pattern-wins part applied to a concrete text. -/
theorem claim9_pattern_order_witness :
    extractDocNumber "Номер документа 1234" = some (String.mk ['1', '2', '3', '4']) :=
  claim9_pattern_order.1 "Номер документа 1234" ['1', '2', '3', '4'] (by decide)

/-- C9 counterexample: on "1234567890 01.02.2024" neither the primary
pattern nor the fallback as the claim describes it (a standalone run of
1-9 digits immediately followed by a date token) matches — the only digit
run has 10 digits — so the claim predicts "not found"; the code's
fallback `(\d{1,9})\s+\d{2}\.\d{2}\.\d{4}` nevertheless matches the
trailing 9 digits of the run and the extractor returns "234567890". -/
theorem claim9_counterexample :
    specFallbackFind "1234567890 01.02.2024" = none ∧
    searchD1 "1234567890 01.02.2024".toList = none ∧
    extractDocNumber "1234567890 01.02.2024" = some "234567890" := by
  decide

/-- The trim keyed to the original index, written out: rows
`[3 : end-2)` in general and `[1 : end-2)` at index 2. -/
theorem trimAt_eq (i : Nat) (t : RawTable) :
    trimAt i t =
      (t.cells.drop (if i = 2 then 1 else 3)).take
        (t.cells.length - 2 - (if i = 2 then 1 else 3)) := by
  by_cases h : i = 2 <;> simp [trimAt, sliceRule, pyslice, h]

/-- Full characterization of a successful run of the selector loop:
some table at position `j` of the remaining list is eligible and survives
the trim for original index `i + j`, the output is that trimmed table
with its first row as header, and every earlier table was either too
small or did not survive its trim. -/
theorem chooseGo_eq_some (out : CleanedTable) :
    ∀ (ts : List RawTable) (i : Nat), chooseGo i ts = some out →
    ∃ j t, ts[j]? = some t ∧ smallTable t = false ∧
      2 ≤ (trimAt (i + j) t).length ∧ out = headerize (trimAt (i + j) t) ∧
      ∀ k t2, k < j → ts[k]? = some t2 →
        smallTable t2 = true ∨ (trimAt (i + k) t2).length < 2
  | [], i => by simp [chooseGo]
  | hd :: tl, i => by
      intro h
      rw [chooseGo] at h
      by_cases hs : smallTable hd
      · rw [if_pos hs] at h
        obtain ⟨j, t, hget, hsm, hlen, hout, hprev⟩ := chooseGo_eq_some out tl (i + 1) h
        refine ⟨j + 1, t, by simpa using hget, hsm, ?_, ?_, ?_⟩
        · have : i + 1 + j = i + (j + 1) := by omega
          rw [← this]; exact hlen
        · have : i + 1 + j = i + (j + 1) := by omega
          rw [← this]; exact hout
        · intro k t2 hk hget2
          match k with
          | 0 =>
              left
              simp only [List.getElem?_cons_zero, Option.some_inj] at hget2
              rw [← hget2]; exact hs
          | k + 1 =>
              have : i + 1 + k = i + (k + 1) := by omega
              rw [← this]
              exact hprev k t2 (by omega) (by simpa using hget2)
      · rw [if_neg hs] at h
        by_cases hlen : (trimAt i hd).length < 2
        · rw [if_pos hlen] at h
          obtain ⟨j, t, hget, hsm, hlen2, hout, hprev⟩ := chooseGo_eq_some out tl (i + 1) h
          refine ⟨j + 1, t, by simpa using hget, hsm, ?_, ?_, ?_⟩
          · have : i + 1 + j = i + (j + 1) := by omega
            rw [← this]; exact hlen2
          · have : i + 1 + j = i + (j + 1) := by omega
            rw [← this]; exact hout
          · intro k t2 hk hget2
            match k with
            | 0 =>
                right
                simp only [List.getElem?_cons_zero, Option.some_inj] at hget2
                rw [← hget2]; simpa using hlen
            | k + 1 =>
                have : i + 1 + k = i + (k + 1) := by omega
                rw [← this]
                exact hprev k t2 (by omega) (by simpa using hget2)
        · rw [if_neg hlen] at h
          simp only [Option.some_inj] at h
          refine ⟨0, hd, by simp, by simpa using hs, ?_, ?_, ?_⟩
          · rw [Nat.add_zero]; omega
          · rw [Nat.add_zero]; exact h.symm
          · intro k t2 hk
            omega

/-- C4: the selector iterates the raw tables in original order, skips
every table with 5 or fewer rows or 2 or fewer columns, trims a
considered table by offsets keyed to its index in the original list —
rows `[3 : end-2)` except `[1 : end-2)` at index 2 — and a
first-positioned table with only 3 rows is skipped, the search continuing
at index 1. -/
theorem claim4_selector_positional :
    (∀ ts out, chooseAndCleanTable ts = some out →
       ∃ (j : Nat) (t : RawTable), ts[j]? = some t ∧ ¬ (t.cells.length ≤ 5 ∨ t.ncols ≤ 2) ∧
         2 ≤ ((t.cells.drop (if j = 2 then 1 else 3)).take
               (t.cells.length - 2 - (if j = 2 then 1 else 3))).length ∧
         out = headerize ((t.cells.drop (if j = 2 then 1 else 3)).take
               (t.cells.length - 2 - (if j = 2 then 1 else 3))) ∧
         ∀ (k : Nat) (t2 : RawTable), k < j → ts[k]? = some t2 →
           (t2.cells.length ≤ 5 ∨ t2.ncols ≤ 2) ∨
             ((t2.cells.drop (if k = 2 then 1 else 3)).take
               (t2.cells.length - 2 - (if k = 2 then 1 else 3))).length < 2) ∧
    (∀ i t ts, (t.cells.length ≤ 5 ∨ t.ncols ≤ 2) →
       chooseGo i (t :: ts) = chooseGo (i + 1) ts) ∧
    (∀ t ts, t.cells.length = 3 → chooseAndCleanTable (t :: ts) = chooseGo 1 ts) := by
  refine ⟨?_, ?_, ?_⟩
  · intro ts out h
    obtain ⟨j, t, hget, hsm, hlen, hout, hprev⟩ := chooseGo_eq_some out ts 0 h
    rw [Nat.zero_add] at hlen hout
    rw [trimAt_eq] at hlen hout
    refine ⟨j, t, hget, by simpa [smallTable] using hsm, hlen, hout, ?_⟩
    intro k t2 hk hget2
    rcases hprev k t2 hk hget2 with h1 | h1
    · left; simpa [smallTable] using h1
    · right; rw [Nat.zero_add, trimAt_eq] at h1; exact h1
  · intro i t ts hsmall
    have hs : smallTable t = true := by simpa [smallTable] using hsmall
    rw [chooseGo, if_pos hs]
  · intro t ts h3
    have hs : smallTable t = true := by simp [smallTable, h3]
    rw [chooseAndCleanTable, chooseGo, if_pos hs]

/-- C4 witness: the skip equation applied to a concrete 3-row table. -/
theorem claim4_selector_positional_witness :
    chooseAndCleanTable [⟨4, [[some "a"], [some "b"], [some "c"]]⟩] = chooseGo 1 [] :=
  claim4_selector_positional.2.2 ⟨4, [[some "a"], [some "b"], [some "c"]]⟩ [] (by decide)

/-- C5 (amended): a trimmed table is accepted exactly when at least 2
rows remain after trimming, that is, at least 1 data row after the first
remaining row is removed as the header; a trimmed table left with fewer
than 2 rows (header included) is rejected and the next eligible raw table
is tried. -/
theorem claim5_post_trim_threshold :
    (∀ ts out, chooseAndCleanTable ts = some out → 1 ≤ out.data.length) ∧
    (∀ i t ts, smallTable t = false → (trimAt i t).length < 2 →
       chooseGo i (t :: ts) = chooseGo (i + 1) ts) := by
  constructor
  · intro ts out h
    obtain ⟨j, t, hget, hsm, hlen, hout, hprev⟩ := chooseGo_eq_some out ts 0 h
    rw [hout]
    simp only [headerize, List.length_tail]
    omega
  · intro i t ts hsm hlen
    rw [chooseGo, if_neg (by simp [hsm]), if_pos hlen]

/-- C5 witness: the rejection equation applied to a concrete eligible
table whose trim keeps a single row. -/
theorem claim5_post_trim_threshold_witness :
    chooseGo 0 [⟨3, [[some "a"], [some "b"], [some "c"], [some "d"],
      [some "e"], [some "f"]]⟩] = chooseGo 1 [] :=
  claim5_post_trim_threshold.2 0
    ⟨3, [[some "a"], [some "b"], [some "c"], [some "d"], [some "e"], [some "f"]]⟩
    [] (by decide) (by decide)

/-- C5 counterexample: `rawSeven` is eligible at index 0 and its trim
keeps exactly 2 rows, so after header removal only 1 data row remains;
the claim says such a table is rejected, but the selector accepts it. -/
theorem claim5_counterexample :
    chooseAndCleanTable [rawSeven] =
      some ⟨[some "a3", some "b3", some "c3"], [[some "a4", some "b4", some "c4"]]⟩ ∧
    (chooseAndCleanTable [rawSeven]).map (fun c => c.data.length) = some 1 := by
  decide

/-- C6 (amended): zero eligible documents produce the empty reconciled
frame with only the label and code columns, and the Totals Calculator
returns an empty frame unchanged — no totals row and no total column are
added — without raising an error. -/
theorem claim6_zero_documents (rt : ReconciledTable) (h : rt.rows = []) :
    reconcile ([] : List DocTable) = ⟨[], []⟩ ∧
    processTables [] = .unchanged ⟨[], []⟩ ∧
    addTotals rt = .unchanged rt := by
  refine ⟨by decide, by decide, ?_⟩
  rw [addTotals, if_pos (by simp [h])]

/-- C6 witness: the zero-document pipeline and an empty frame with one
document column both pass through unchanged. -/
theorem claim6_zero_documents_witness :
    reconcile ([] : List DocTable) = ⟨[], []⟩ ∧
    processTables [] = .unchanged ⟨[], []⟩ ∧
    addTotals ⟨["9"], []⟩ = .unchanged ⟨["9"], []⟩ :=
  claim6_zero_documents ⟨["9"], []⟩ rfl

/-- If a string is in the list, the joined string splits around it. -/
theorem joinSep_mem_split (sep x : String) :
    ∀ l : List String, x ∈ l → ∃ a b, joinSep sep l = a ++ x ++ b
  | [], h => absurd h (List.not_mem_nil x)
  | [s], h => by
      obtain rfl : x = s := by simpa using h
      exact ⟨"", "", by simp [joinSep]⟩
  | s :: s2 :: rest, h => by
      rcases List.mem_cons.mp h with rfl | h2
      · refine ⟨"", sep ++ joinSep sep (s2 :: rest), ?_⟩
        rw [joinSep]
        simp [String.append_assoc]
      · obtain ⟨a, b, hab⟩ := joinSep_mem_split sep x (s2 :: rest) h2
        refine ⟨s ++ sep ++ a, b, ?_⟩
        rw [joinSep, hab]
        simp [String.append_assoc]

/-- If an element is in the list, its printed form appears inside the
printed list. -/
theorem pyReprList_mem_split (f : α → String) (l : List α) (x : α) (h : x ∈ l) :
    ∃ a b, pyReprList f l = a ++ f x ++ b := by
  obtain ⟨a, b, hab⟩ := joinSep_mem_split ", " (f x) (l.map f) (List.mem_map_of_mem f h)
  refine ⟨"[" ++ a, b ++ "]", ?_⟩
  rw [pyReprList, hab]
  simp [String.append_assoc]

/-- C7: when the identifier is found and a table is selected but at least
one of the required source column labels "2", "3", "10" is absent from
its header, the Document Table Builder raises a structural error rather
than skipping, and the message contains the document path, the repr of
every missing label, and the repr of every available column name. -/
theorem claim7_schema_error (pdfPath dn : String) (t : CleanedTable)
    (hmiss : requiredCols.filter (fun c => ¬ (some c ∈ t.header)) ≠ []) :
    ∃ msg, buildDocDf pdfPath (some dn) (some t) = .error msg ∧
      (∃ a b, msg = a ++ pdfPath ++ b) ∧
      (∀ m ∈ requiredCols.filter (fun c => ¬ (some c ∈ t.header)),
         ∃ a b, msg = a ++ pyReprStr m ++ b) ∧
      (∀ c ∈ t.header, ∃ a b, msg = a ++ pyReprCell c ++ b) := by
  refine ⟨schemaErrorMsg pdfPath (requiredCols.filter (fun c => ¬ (some c ∈ t.header))) t.header,
    ?_, ?_, ?_, ?_⟩
  · rw [buildDocDf, if_neg]
    simpa [List.isEmpty_iff] using hmiss
  · refine ⟨"", ": нет колонок " ++
      pyReprList pyReprStr (requiredCols.filter (fun c => ¬ (some c ∈ t.header))) ++
      ". Доступны: " ++ pyReprList pyReprCell t.header, ?_⟩
    rw [schemaErrorMsg]
    simp [String.append_assoc]
  · intro m hm
    obtain ⟨a, b, hab⟩ := pyReprList_mem_split pyReprStr _ m hm
    refine ⟨pdfPath ++ ": нет колонок " ++ a,
      b ++ (". Доступны: " ++ pyReprList pyReprCell t.header), ?_⟩
    rw [schemaErrorMsg, hab]
    simp [String.append_assoc]
  · intro c hc
    obtain ⟨a, b, hab⟩ := pyReprList_mem_split pyReprCell _ c hc
    refine ⟨pdfPath ++ ": нет колонок " ++
      pyReprList pyReprStr (requiredCols.filter (fun c => ¬ (some c ∈ t.header))) ++
      ". Доступны: " ++ a, b, ?_⟩
    rw [schemaErrorMsg, hab]
    simp [String.append_assoc]

/-- C7 witness: a concrete table missing the labels "3" and "10". -/
theorem claim7_schema_error_witness :
    ∃ msg, buildDocDf "doc.pdf" (some "100") (some exampleBadHeader) = .error msg ∧
      (∃ a b, msg = a ++ "doc.pdf" ++ b) ∧
      (∀ m ∈ requiredCols.filter (fun c => ¬ (some c ∈ exampleBadHeader.header)),
         ∃ a b, msg = a ++ pyReprStr m ++ b) ∧
      (∀ c ∈ exampleBadHeader.header, ∃ a b, msg = a ++ pyReprCell c ++ b) :=
  claim7_schema_error "doc.pdf" "100" exampleBadHeader (by decide)

/-- C6 counterexample: with zero documents the result is the unchanged
empty frame — it has no rows at all, against the claimed degenerate
single totals row with a 0 total column. -/
theorem claim6_counterexample :
    processTables [] = .unchanged ⟨[], []⟩ := by
  decide

/-- The integer-level key comparison is the comparison of the denoted
rational values. -/
theorem sciLtB_eq_ratLt (p q : Int × Int) :
    sciLtB p q = decide (sciToRat p < sciToRat q) := by
  unfold sciLtB sciToRat
  rw [decide_eq_decide]
  set k := min p.2 q.2 with hk
  have hp : (0 : Int) ≤ p.2 - k := by omega
  have hq : (0 : Int) ≤ q.2 - k := by omega
  have h10 : (10 : Rat) ≠ 0 := by norm_num
  have hpos : (0 : Rat) < (10 : Rat) ^ k := zpow_pos (by norm_num) k
  have hcast : ∀ (m e : Int), 0 ≤ e →
      ((m * 10 ^ e.toNat : Int) : Rat) * (10 : Rat) ^ k = (m : Rat) * (10 : Rat) ^ (e + k) := by
    intro m e he
    push_cast
    rw [← zpow_natCast (10 : Rat) e.toNat, Int.toNat_of_nonneg he, mul_assoc, ← zpow_add₀ h10]
  have hP : (p.1 : Rat) * (10 : Rat) ^ p.2 =
      ((p.1 * 10 ^ (p.2 - k).toNat : Int) : Rat) * (10 : Rat) ^ k := by
    rw [hcast p.1 (p.2 - k) hp, sub_add_cancel]
  have hQ : (q.1 : Rat) * (10 : Rat) ^ q.2 =
      ((q.1 * 10 ^ (q.2 - k).toNat : Int) : Rat) * (10 : Rat) ^ k := by
    rw [hcast q.1 (q.2 - k) hq, sub_add_cancel]
  constructor
  · intro h
    rw [hP, hQ]
    exact (mul_lt_mul_right hpos).mpr (Int.cast_lt.mpr h)
  · intro h
    rw [hP, hQ] at h
    exact Int.cast_lt.mp ((mul_lt_mul_right hpos).mp h)

/-- Key comparison over optional keys, at the rational level. -/
theorem optKeyLtB_eq_optRatLtB (a b : Option (Int × Int)) :
    optKeyLtB a b = optRatLtB (a.map sciToRat) (b.map sciToRat) := by
  cases a <;> cases b <;> simp [optKeyLtB, optRatLtB, sciLtB_eq_ratLt]

/-- Ties of the strict key order mean equal keys (missing included). -/
theorem optRatLtB_tie {x y : Option Rat}
    (h1 : optRatLtB x y = false) (h2 : optRatLtB y x = false) : x = y := by
  cases x <;> cases y <;> simp_all [optRatLtB]
  exact le_antisymm (by assumption) (by assumption)

/-- The strict key order is transitive. -/
theorem optRatLtB_trans {x y z : Option Rat}
    (h1 : optRatLtB x y = true) (h2 : optRatLtB y z = true) : optRatLtB x z = true := by
  cases x <;> cases y <;> cases z <;> simp_all [optRatLtB]
  exact lt_trans h1 h2

/-- The strict key order is asymmetric. -/
theorem optRatLtB_asymm {x y : Option Rat}
    (h : optRatLtB x y = true) : optRatLtB y x = false := by
  cases x <;> cases y <;> simp_all [optRatLtB]
  exact le_of_lt h

/-- The lexicographic character order is total. -/
theorem charsLe_total : ∀ a b : List Char, charsLe a b = true ∨ charsLe b a = true
  | [], _ => Or.inl rfl
  | _ :: _, [] => Or.inr rfl
  | a :: as, b :: bs => by
      rw [charsLe, charsLe]
      by_cases h1 : a < b
      · left; simp [h1]
      · by_cases h2 : b < a
        · right; simp [h2]
        · simpa [h1, h2] using charsLe_total as bs

/-- The lexicographic character order is transitive. -/
theorem charsLe_trans : ∀ a b c : List Char,
    charsLe a b = true → charsLe b c = true → charsLe a c = true
  | [], _, _ => by intro _ _; rfl
  | _ :: _, [], _ => by intro h _; simp [charsLe] at h
  | _ :: _, _ :: _, [] => by intro _ h; simp [charsLe] at h
  | a :: as, b :: bs, c :: cs => by
      intro hab hbc
      rw [charsLe] at hab hbc ⊢
      by_cases h1 : a < b
      · by_cases h2 : b < c
        · simp [lt_trans h1 h2]
        · by_cases h3 : c < b
          · simp [h2, h3] at hbc
          · have hbceq : b = c := le_antisymm (not_lt.mp h3) (not_lt.mp h2)
            simp [hbceq ▸ h1]
      · by_cases h2 : b < a
        · simp [h1, h2] at hab
        · have heq : a = b := le_antisymm (not_lt.mp h2) (not_lt.mp h1)
          subst heq
          simp only [lt_irrefl, if_false] at hab
          by_cases h3 : a < c
          · simp [h3]
          · by_cases h4 : c < a
            · simp [h3, h4] at hbc
            · simp only [h3, h4, if_false] at hbc ⊢
              exact charsLe_trans as bs cs hab hbc

/-- The code order of the sort is total. -/
theorem codeLe_total (a b : String) : codeLe a b = true ∨ codeLe b a = true := by
  rw [codeLe, codeLe]
  by_cases h1 : optKeyLtB (codeKey a) (codeKey b) = true
  · left; simp [h1]
  · by_cases h2 : optKeyLtB (codeKey b) (codeKey a) = true
    · right; simp [h2]
    · simpa [h1, h2, strLe] using charsLe_total a.toList b.toList

/-- The code order of the sort is transitive. -/
theorem codeLe_trans {a b c : String}
    (hab : codeLe a b = true) (hbc : codeLe b c = true) : codeLe a c = true := by
  rw [codeLe] at hab hbc ⊢
  rw [optKeyLtB_eq_optRatLtB] at hab hbc ⊢
  rw [optKeyLtB_eq_optRatLtB (codeKey b) (codeKey a)] at hab
  rw [optKeyLtB_eq_optRatLtB (codeKey c) (codeKey b)] at hbc
  rw [optKeyLtB_eq_optRatLtB (codeKey c) (codeKey a)]
  set x := (codeKey a).map sciToRat with hx
  set y := (codeKey b).map sciToRat with hy
  set z := (codeKey c).map sciToRat with hz
  by_cases h1 : optRatLtB x y = true
  · by_cases h2 : optRatLtB y z = true
    · simp [optRatLtB_trans h1 h2]
    · by_cases h3 : optRatLtB z y = true
      · simp [h2, h3] at hbc
      · have : y = z := optRatLtB_tie (by simpa using h2) (by simpa using h3)
        simp [← this, h1]
  · by_cases h2 : optRatLtB y x = true
    · simp [h1, h2] at hab
    · have hxy : x = y := optRatLtB_tie (by simpa using h1) (by simpa using h2)
      rw [← hxy] at hbc
      simp only [h1, h2, if_false, Bool.false_eq_true] at hab
      by_cases h3 : optRatLtB x z = true
      · simp [h3]
      · by_cases h4 : optRatLtB z x = true
        · simp [h3, h4] at hbc
        · simp only [h3, h4, if_false, Bool.false_eq_true] at hbc ⊢
          exact charsLe_trans a.toList b.toList c.toList hab hbc

instance : IsTotal RRow rowLeP :=
  ⟨fun a b => codeLe_total a.code b.code⟩

instance : IsTrans RRow rowLeP :=
  ⟨fun _ _ _ hab hbc => codeLe_trans hab hbc⟩

/-- C1 (amended): for every non-empty reconciled table the Totals
Calculator first sorts rows by RowCode ascending — numerically when the
code parses as a number and lexically otherwise, non-numeric codes after
numeric ones, ties broken by the code string, so "10", "2", "abc" come
out as "2", "10", "abc" — then appends a per-row total column equal to
the sum of that row's document-value cells with missing treated as 0, and
a final totals row whose total-column cell is the sum of all row
totals. -/
theorem claim1_totals_calculator (rt : ReconciledTable) (tv : TotalsView)
    (h : addTotals rt = .view tv) :
    (∃ sorted : List RRow,
       sorted.Perm rt.rows ∧
       sorted.Pairwise (fun r1 r2 => codeLe r1.code r2.code = true) ∧
       ∃ colVals : List (Option Rat),
         tv.rows =
           sorted.map (fun r =>
             ⟨r.label, some r.code, r.vals, (r.vals.map (fun v => v.getD 0)).sum⟩)
           ++ [⟨some totalLabel, none, colVals,
                (sorted.map (fun r => (r.vals.map (fun v => v.getD 0)).sum)).sum⟩]) ∧
    List.insertionSort (fun a b => codeLe a b = true) ["10", "2", "abc"] =
      ["2", "10", "abc"] := by
  refine ⟨?_, by decide⟩
  rw [addTotals] at h
  by_cases he : rt.rows.isEmpty
  · rw [if_pos he] at h
    simp at h
  · rw [if_neg he] at h
    simp only [TotalsResult.view.injEq] at h
    refine ⟨List.insertionSort rowLeP rt.rows, List.perm_insertionSort _ _,
      List.sorted_insertionSort rowLeP rt.rows,
      (List.range rt.docs.length).map
        (fun j => some (colSum (List.insertionSort rowLeP rt.rows) j)), ?_⟩
    rw [← h]
    simp only []
    congr 1
    · exact List.map_congr_left fun r _ => by
        simp [rowTotal, sumSkipna_eq_getD_sum]
    · have : (List.insertionSort rowLeP rt.rows).map rowTotal =
          (List.insertionSort rowLeP rt.rows).map
            (fun r => (r.vals.map (fun v => v.getD 0)).sum) :=
        List.map_congr_left fun r _ => by simp [rowTotal, sumSkipna_eq_getD_sum]
      simp [this]

/-- C1 witness: the end-to-end scenario table. -/
theorem claim1_totals_calculator_witness :
    (∃ sorted : List RRow,
       sorted.Perm exampleReconciled.rows ∧
       sorted.Pairwise (fun r1 r2 => codeLe r1.code r2.code = true) ∧
       ∃ colVals : List (Option Rat),
         exampleTotalsView.rows =
           sorted.map (fun r =>
             ⟨r.label, some r.code, r.vals, (r.vals.map (fun v => v.getD 0)).sum⟩)
           ++ [⟨some totalLabel, none, colVals,
                (sorted.map (fun r => (r.vals.map (fun v => v.getD 0)).sum)).sum⟩]) ∧
    List.insertionSort (fun a b => codeLe a b = true) ["10", "2", "abc"] =
      ["2", "10", "abc"] :=
  claim1_totals_calculator exampleReconciled exampleTotalsView (by
    simp +decide [addTotals, exampleReconciled, exampleTotalsView, rowTotal, colSum,
      sumSkipna, totalLabel, List.range_succ]
    norm_num)

/-- C1 counterexample: a reconciled table with no rows (one document
column, zero codes) passes through the Totals Calculator unchanged: no
sorting, no total column, no totals row — so the claim does not hold for
every reconciled table. -/
theorem claim1_counterexample :
    addTotals ⟨["100"], []⟩ = .unchanged ⟨["100"], []⟩ := by
  decide

/-- C10: the Totals Calculator does not mutate its argument (the model is
a pure function of the input; the source operates on `final_df.copy()`):
for a non-empty input the output rows are exactly the input's rows —
reordered by the code sort, label, code and value cells unchanged, each
extended with its total — plus exactly one appended totals row, so the
output has exactly one more row than the input. -/
theorem claim10_totals_frame (rt : ReconciledTable) (tv : TotalsView)
    (h : addTotals rt = .view tv) :
    tv.rows.length = rt.rows.length + 1 ∧
    ∃ sorted : List RRow, sorted.Perm rt.rows ∧
      tv.rows.dropLast = sorted.map (fun r => ⟨r.label, some r.code, r.vals, rowTotal r⟩) ∧
      ∃ trow : TRow, tv.rows.getLast? = some trow ∧
        trow.label = some totalLabel ∧ trow.code = none := by
  rw [addTotals] at h
  by_cases he : rt.rows.isEmpty
  · rw [if_pos he] at h
    simp at h
  · rw [if_neg he] at h
    simp only [TotalsResult.view.injEq] at h
    rw [← h]
    constructor
    · simp
    · refine ⟨List.insertionSort rowLeP rt.rows, List.perm_insertionSort _ _, ?_, ?_⟩
      · simp
      · exact ⟨_, List.getLast?_concat _, rfl, rfl⟩

/-- When every code of the incoming document is already a row of the
running table, the outer merge only appends that document's value column
to the existing rows. -/
theorem mergeOne_covered (k : Nat) (acc : List RRow) (d : DocTable)
    (hcov : ∀ dr ∈ d.rows, ∃ r ∈ acc, r.code = dr.code) :
    mergeOne k acc d =
      acc.map (fun r => { r with vals := r.vals ++ [lookupVal d r.code] }) := by
  rw [mergeOne]
  have hfil : d.rows.filter (fun dr => acc.all (fun r => r.code ≠ dr.code)) = [] := by
    rw [List.filter_eq_nil_iff]
    intro dr hdr
    obtain ⟨r, hr, hcode⟩ := hcov dr hdr
    rw [List.all_eq_true]
    push_neg
    exact ⟨r, hr, by simpa using hcode⟩
  rw [hfil]
  simp

/-- Folding the outer merges over documents whose codes are all covered
by the running table extends every row with one value per document. -/
theorem mergeAll_covered : ∀ (ds : List DocTable) (k : Nat) (acc : List RRow),
    (∀ d ∈ ds, ∀ dr ∈ d.rows, ∃ r ∈ acc, r.code = dr.code) →
    mergeAll k acc ds =
      acc.map (fun r => { r with vals := r.vals ++ ds.map (fun d => lookupVal d r.code) })
  | [], k, acc, _ => by
      rw [mergeAll]
      symm
      refine (List.map_congr_left fun r _ => ?_).trans (List.map_id acc)
      simp
  | d :: ds, k, acc, h => by
      rw [mergeAll, mergeOne_covered k acc d (h d (by simp))]
      rw [mergeAll_covered ds (k + 1) _ ?_]
      · rw [List.map_map]
        refine List.map_congr_left fun r _ => ?_
        simp
      · intro d2 hd2 dr hdr
        obtain ⟨r, hr, hcode⟩ := h d2 (by simp [hd2]) dr hdr
        exact ⟨{ r with vals := r.vals ++ [lookupVal d r.code] },
          List.mem_map_of_mem _ hr, hcode⟩

/-- The keys of the label dictionary are the deduplicated, sorted codes
of all documents' rows. -/
theorem namesList_map_fst (dfs : List DocTable) :
    (namesList dfs).map Prod.fst =
      sortedCodes (((dfs.map (fun d => d.rows)).flatten).map (fun r => r.code)) := by
  rw [namesList, List.map_map]
  exact (List.map_congr_left fun c _ => rfl).trans (List.map_id _)

/-- Closed form of the reconciled rows: one row per dictionary code,
carrying each document's value for that code in document order. -/
theorem reconcile_rows_eq (dfs : List DocTable) :
    (reconcile dfs).rows =
      (namesList dfs).map (fun p => ⟨p.1, p.2, dfs.map (fun d => lookupVal d p.1)⟩) := by
  rw [reconcile]
  rw [mergeAll_covered dfs 0 _ ?_]
  · rw [List.map_map]
    refine List.map_congr_left fun p _ => ?_
    simp
  · intro d hd dr hdr
    have hmem : dr.code ∈ (namesList dfs).map Prod.fst := by
      rw [namesList_map_fst, mem_sortedCodes]
      rw [List.mem_map]
      refine ⟨dr, ?_, rfl⟩
      rw [List.mem_flatten]
      exact ⟨d.rows, List.mem_map_of_mem _ hd, hdr⟩
    obtain ⟨p, hp, hfst⟩ := List.mem_map.mp hmem
    exact ⟨⟨p.1, p.2, []⟩, List.mem_map_of_mem _ hp, hfst⟩

/-- C2: the RowCode set of the reconciled output is the union of the
RowCode sets of the input DocumentTables — no code lost, none invented —
every reconciled row has one value cell per document, and a document
lacking a code contributes a missing value (not zero) for its column.
The DocumentTable invariant (unique codes per document, guaranteed by the
builder's groupby) scopes the embedding of the pandas outer merge. -/
theorem claim2_reconciler_union (dfs : List DocTable)
    (_hnd : ∀ d ∈ dfs, (d.rows.map (fun r => r.code)).Nodup) :
    (∀ c, (∃ r ∈ (reconcile dfs).rows, r.code = c) ↔
       ∃ d ∈ dfs, ∃ dr ∈ d.rows, dr.code = c) ∧
    (∀ r ∈ (reconcile dfs).rows, r.vals.length = dfs.length) ∧
    (∀ (j : Nat) (d : DocTable), dfs[j]? = some d →
       ∀ r ∈ (reconcile dfs).rows, (∀ dr ∈ d.rows, dr.code ≠ r.code) →
         r.vals[j]? = some none) := by
  refine ⟨?_, ?_, ?_⟩
  · intro c
    rw [reconcile_rows_eq]
    constructor
    · rintro ⟨r, hr, rfl⟩
      obtain ⟨p, hp, rfl⟩ := List.mem_map.mp hr
      have : p.1 ∈ (namesList dfs).map Prod.fst := List.mem_map_of_mem _ hp
      rw [namesList_map_fst, mem_sortedCodes, List.mem_map] at this
      obtain ⟨dr, hdr, hc⟩ := this
      rw [List.mem_flatten] at hdr
      obtain ⟨rows, hrows, hdr2⟩ := hdr
      obtain ⟨d, hd, rfl⟩ := List.mem_map.mp hrows
      exact ⟨d, hd, dr, hdr2, hc⟩
    · rintro ⟨d, hd, dr, hdr, rfl⟩
      have : dr.code ∈ (namesList dfs).map Prod.fst := by
        rw [namesList_map_fst, mem_sortedCodes, List.mem_map]
        refine ⟨dr, ?_, rfl⟩
        rw [List.mem_flatten]
        exact ⟨d.rows, List.mem_map_of_mem _ hd, hdr⟩
      obtain ⟨p, hp, hfst⟩ := List.mem_map.mp this
      exact ⟨⟨p.1, p.2, dfs.map (fun d2 => lookupVal d2 p.1)⟩,
        List.mem_map_of_mem _ hp, hfst⟩
  · intro r hr
    rw [reconcile_rows_eq] at hr
    obtain ⟨p, hp, rfl⟩ := List.mem_map.mp hr
    simp
  · intro j d hj r hr habs
    rw [reconcile_rows_eq] at hr
    obtain ⟨p, hp, rfl⟩ := List.mem_map.mp hr
    have hnone : List.find? (fun rr => rr.code = p.1) d.rows = none :=
      List.find?_eq_none.mpr (fun dr hdr => by simpa using habs dr hdr)
    simp only [List.getElem?_map, hj]
    show some (lookupVal d p.1) = some none
    rw [lookupVal, hnone]
    rfl

/-- C3: for a document with a found identifier and a selected table
containing the three required columns, the builder's output has unique
RowCodes; rows sharing a code are grouped into one row whose value is the
sum of the group's numeric values with missing treated as 0 and whose
label is the first non-missing label of the group in original row order
(missing when all are missing); the output codes are exactly the codes of
the normalized, code-bearing rows. -/
theorem claim3_builder_grouping (pdfPath dn : String) (t : CleanedTable)
    (dt : DocTable) (dno : Option String)
    (h : buildDocDf pdfPath (some dn) (some t) = .ok (some dt, dno)) :
    dno = some dn ∧ dt.docno = dn ∧
    (dt.rows.map (fun r => r.code)).Nodup ∧
    (∀ c, (∃ r ∈ dt.rows, r.code = c) ↔
       c ∈ (keptRows (t.data.map (rowTriple t))).map (fun q => q.1)) ∧
    (∀ r ∈ dt.rows,
       r.val = (((keptRows (t.data.map (rowTriple t))).filter
         (fun q => q.1 = r.code)).map (fun q => q.2.2.getD 0)).sum ∧
       r.label = (((keptRows (t.data.map (rowTriple t))).filter
         (fun q => q.1 = r.code)).filterMap (fun q => q.2.1)).head?) := by
  rw [buildDocDf] at h
  by_cases hm : (requiredCols.filter (fun c => ¬ (some c ∈ t.header))).isEmpty
  · rw [if_pos hm] at h
    simp only [Except.ok.injEq, Prod.mk.injEq, Option.some_inj] at h
    obtain ⟨hdt, hdno⟩ := h
    subst hdno
    rw [← hdt]
    refine ⟨rfl, rfl, ?_, ?_, ?_⟩
    · have hcodes : (buildDocRows (t.data.map (rowTriple t))).map (fun r => r.code) =
          sortedCodes ((keptRows (t.data.map (rowTriple t))).map (fun q => q.1)) := by
        rw [buildDocRows, List.map_map]
        exact (List.map_congr_left fun c _ => rfl).trans (List.map_id _)
      rw [hcodes]
      exact nodup_sortedCodes _
    · intro c
      constructor
      · rintro ⟨r, hr, rfl⟩
        rw [buildDocRows] at hr
        obtain ⟨c0, hc0, rfl⟩ := List.mem_map.mp hr
        exact (mem_sortedCodes _ _).mp hc0
      · intro hc
        refine ⟨_, List.mem_map_of_mem _ ((mem_sortedCodes _ _).mpr hc), rfl⟩
    · intro r hr
      rw [buildDocRows] at hr
      obtain ⟨c0, _, rfl⟩ := List.mem_map.mp hr
      exact ⟨filterMap_sum_eq_getD_sum
        (fun q : String × Option String × Option Rat => q.2.2) _, rfl⟩
  · rw [if_neg hm] at h
    exact absurd h (by simp)

/-- C3 witness: a concrete table whose codes "10.0" and " 10 " normalize
to the same code "10" and are grouped; the output codes are exactly
["10", "2"], distinct. -/
theorem claim3_builder_grouping_witness :
    ((some "100" : Option String) = some "100" ∧
     (DocTable.mk "100"
       (buildDocRows (exampleGoodTable.data.map (rowTriple exampleGoodTable)))).docno = "100" ∧
     ((DocTable.mk "100"
       (buildDocRows (exampleGoodTable.data.map (rowTriple exampleGoodTable)))).rows.map
         (fun r => r.code)).Nodup ∧
     (∀ c, (∃ r ∈ (DocTable.mk "100"
         (buildDocRows (exampleGoodTable.data.map (rowTriple exampleGoodTable)))).rows,
           r.code = c) ↔
        c ∈ (keptRows (exampleGoodTable.data.map (rowTriple exampleGoodTable))).map
          (fun q => q.1)) ∧
     (∀ r ∈ (DocTable.mk "100"
         (buildDocRows (exampleGoodTable.data.map (rowTriple exampleGoodTable)))).rows,
        r.val = (((keptRows (exampleGoodTable.data.map (rowTriple exampleGoodTable))).filter
          (fun q => q.1 = r.code)).map (fun q => q.2.2.getD 0)).sum ∧
        r.label = (((keptRows (exampleGoodTable.data.map (rowTriple exampleGoodTable))).filter
          (fun q => q.1 = r.code)).filterMap (fun q => q.2.1)).head?)) ∧
    (buildDocRows (exampleGoodTable.data.map (rowTriple exampleGoodTable))).map
      (fun r => r.code) = ["10", "2"] :=
  ⟨claim3_builder_grouping "file.pdf" "100" exampleGoodTable
    (DocTable.mk "100"
      (buildDocRows (exampleGoodTable.data.map (rowTriple exampleGoodTable))))
    (some "100") rfl, by decide⟩

/-- C2 witness: the end-to-end scenario documents. -/
theorem claim2_reconciler_union_witness :
    (∀ c, (∃ r ∈ (reconcile [exampleDocA, exampleDocB]).rows, r.code = c) ↔
       ∃ d ∈ [exampleDocA, exampleDocB], ∃ dr ∈ d.rows, dr.code = c) ∧
    (∀ r ∈ (reconcile [exampleDocA, exampleDocB]).rows,
       r.vals.length = [exampleDocA, exampleDocB].length) ∧
    (∀ (j : Nat) (d : DocTable), [exampleDocA, exampleDocB][j]? = some d →
       ∀ r ∈ (reconcile [exampleDocA, exampleDocB]).rows,
         (∀ dr ∈ d.rows, dr.code ≠ r.code) → r.vals[j]? = some none) :=
  claim2_reconciler_union [exampleDocA, exampleDocB] (by decide)

/-- C10 witness: the end-to-end scenario table gains exactly one row. -/
theorem claim10_totals_frame_witness :
    exampleTotalsView.rows.length = exampleReconciled.rows.length + 1 ∧
    ∃ sorted : List RRow, sorted.Perm exampleReconciled.rows ∧
      exampleTotalsView.rows.dropLast =
        sorted.map (fun r => ⟨r.label, some r.code, r.vals, rowTotal r⟩) ∧
      ∃ trow : TRow, exampleTotalsView.rows.getLast? = some trow ∧
        trow.label = some totalLabel ∧ trow.code = none :=
  claim10_totals_frame exampleReconciled exampleTotalsView (by
    simp +decide [addTotals, exampleReconciled, exampleTotalsView, rowTotal, colSum,
      sumSkipna, totalLabel, List.range_succ]
    norm_num)

end PdfToExcel
